import Mathlib

/-!
Verification development for the image-reference / registry-fallback tool.

This file embeds, as Lean definitions, the parts of the repository that the
checked properties talk about:

* the registry endpoint fallback loop of `getData` and the fetcher
  constructor `newManifestFetcher` (source file `src/unnamed/part_001`,
  Go package `main`);
* the directory ("dir") transport: `ParseReference`, `NewReference`,
  `StringWithinTransport`, `ValidatePolicyConfigurationScope`,
  `manifestPath`, `layerPath`, `signaturePath`
  (source file `src/directory/directory_transport.go`), together with a
  faithful functional model of Go's `path/filepath.Clean` and `Join`
  (Unix rules), which the source calls;
* the docker transport's reference normalization, which is exercised by
  the tests in `src/unnamed/part_000` but whose implementation is not part
  of the sources; it is modelled from the spec and those tests.

Machine integers do not occur on the modelled paths; Go strings are
modelled as Lean `String` (lists of characters); Go `error` results are
modelled with `Option`/`Except`; dynamic type assertions on errors are
modelled by pattern matching on an error datatype whose constructors
mirror the concrete Go error types that the code inspects.
-/

/-! ## The endpoint fallback loop (`src/unnamed/part_001`, `getData`) -/

/-- Go `registry.APIVersion`: the two protocol versions produced by
`registry.LookupPullEndpoints` (`registry.APIVersion1`, `registry.APIVersion2`). -/
inductive APIVersion where
  | v1
  | v2
deriving DecidableEq, Repr

/-- The Go `error` values the fallback loop distinguishes, modelled by the
dynamic type tests the code performs:

* `errNoSupport` — a `registry.ErrNoSupport` value (the `id` keeps distinct
  values distinct);
* `generic` — any other concrete error value;
* `unknownVersion` — the `fmt.Errorf("unknown version %d for registry %s", ...)`
  error returned by `newManifestFetcher`;
* `noEndpointsFound` — the `fmt.Errorf("no endpoints found for %s", ...)`
  error created when the loop exhausts its list with `lastErr == nil`;
* `fallbackError` — a `fallbackError{err: inner, confirmedV2: cv2}` wrapper. -/
inductive GoErr where
  | errNoSupport (id : Nat)
  | generic (id : Nat)
  | unknownVersion (v : APIVersion)
  | noEndpointsFound
  | fallbackError (confirmedV2 : Bool) (inner : GoErr)
deriving DecidableEq, Repr

/-- Go `_, ok := err.(registry.ErrNoSupport)`: true exactly for an
`ErrNoSupport` value. -/
def GoErr.isNoSupport : GoErr → Bool
  | .errNoSupport _ => true
  | _ => false

/-- Go `_, ok := err.(fallbackError)`: true exactly for a `fallbackError` value. -/
def GoErr.isFallback : GoErr → Bool
  | .fallbackError _ _ => true
  | _ => false

deriving instance DecidableEq for Except

/-- One endpoint as the loop observes it: its protocol version, the result
its fetcher's `Fetch` would produce if called (`Nat` stands for the returned
`*imageInspect`), and whether `ctx.Done()` is ready at the failure check for
this endpoint.  The endpoint's URL only feeds log messages and error text and
is not modelled. -/
structure Endpoint where
  version : APIVersion
  fetchResult : Except GoErr Nat
  ctxDone : Bool
deriving DecidableEq, Repr

/-- The loop's mutable state: `lastErr`, `discardNoSupportErrors`,
`confirmedV2` (the `imgInspect` variable is the success result). -/
structure LoopState where
  lastErr : Option GoErr
  discard : Bool
  confirmedV2 : Bool
deriving DecidableEq, Repr

/-- Go zero values of the `var (...)` block: `lastErr = nil`,
`discardNoSupportErrors = false`, `confirmedV2 = false`. -/
def initLoopState : LoopState := ⟨none, false, false⟩

/-- What one loop iteration did, recorded for the analysis; each constructor
corresponds to one control path of the loop body. -/
inductive LoopAction where
  | skippedV1
  | constructFailed (e : GoErr)
  | fetchSucceeded (img : Nat)
  | abortedCtxDone (e : GoErr)
  | abortedNoFallback (e : GoErr)
  | ignoredNoSupport (cv2 : Bool) (inner : GoErr)
  | recordedNoSupport (cv2 : Bool) (inner : GoErr)
  | recordedConcrete (cv2 : Bool) (inner : GoErr)
deriving DecidableEq, Repr

/-- How the whole loop ended: a successful fetch (`return imgInspect, nil`),
an early `return nil, err` from inside the loop body, or falling off the end
of the endpoint list (`return nil, lastErr` after the `lastErr == nil` default). -/
inductive RunOutcome where
  | success (img : Nat)
  | earlyErr (e : GoErr)
  | exhausted (e : GoErr)
deriving DecidableEq, Repr

/-- Result of one loop iteration: either the loop continues with an updated
state (`continue` in Go) or it returns. -/
inductive StepResult where
  | next (act : LoopAction) (st' : LoopState)
  | halt (out : RunOutcome) (act : LoopAction)
deriving DecidableEq, Repr

/-- Go `newManifestFetcher` (src/unnamed/part_001 lines 172-189): the
`switch endpoint.Version` has a single live case `registry.APIVersion2`
(the `APIVersion1` case is commented out), every other version falls
through to `fmt.Errorf("unknown version %d for registry %s", ...)`.
The fetcher itself is opaque here (`Unit`); its behaviour is the
endpoint's `fetchResult`. -/
def newManifestFetcher (v : APIVersion) : Except GoErr Unit :=
  match v with
  | .v2 => .ok ()
  | _ => .error (.unknownVersion v)

/-- One iteration of the `for _, endpoint := range endpoints` body of
`getData` (src/unnamed/part_001 lines 119-163), with the Go control flow
branch by branch:

1. `if confirmedV2 && endpoint.Version == registry.APIVersion1 { continue }`;
2. `fetcher, err := newManifestFetcher(...); if err != nil { lastErr = err; continue }`;
3. `if imgInspect, err = fetcher.Fetch(ctx, ref); err != nil { ... }` —
   on success `return imgInspect, nil`;
4. on failure, `select { case <-ctx.Done(): default: ... }`: if the context
   is done, `fallback` stays false and the loop does `return nil, err` with
   the unmodified error;
5. otherwise `if fallbackErr, ok := err.(fallbackError); ok` merges
   `confirmedV2`, unwraps `err = fallbackErr.err` and classifies:
   not `ErrNoSupport` → `discardNoSupportErrors = true; lastErr = err`;
   `ErrNoSupport` and not discarding → `lastErr = err`; else ignored;
   then `continue`;
6. a non-`fallbackError` failure does `return nil, err`. -/
def stepEndpoint (ep : Endpoint) (st : LoopState) : StepResult :=
  if st.confirmedV2 = true ∧ ep.version = .v1 then
    .next .skippedV1 st
  else
    match newManifestFetcher ep.version with
    | .error e => .next (.constructFailed e) { st with lastErr := some e }
    | .ok _ =>
      match ep.fetchResult with
      | .ok img => .halt (.success img) (.fetchSucceeded img)
      | .error e =>
        if ep.ctxDone = true then
          .halt (.earlyErr e) (.abortedCtxDone e)
        else
          match e with
          | .fallbackError cv2 inner =>
            if inner.isNoSupport = true then
              if st.discard = true then
                .next (.ignoredNoSupport cv2 inner)
                  { st with confirmedV2 := st.confirmedV2 || cv2 }
              else
                .next (.recordedNoSupport cv2 inner)
                  { st with lastErr := some inner,
                            confirmedV2 := st.confirmedV2 || cv2 }
            else
              .next (.recordedConcrete cv2 inner)
                ⟨some inner, true, st.confirmedV2 || cv2⟩
          | _ => .halt (.earlyErr e) (.abortedNoFallback e)

/-- One processed endpoint in the trace of a run: the endpoint, the state the
loop was in when it reached it, and what the iteration did. -/
structure TraceEntry where
  ep : Endpoint
  pre : LoopState
  act : LoopAction
deriving DecidableEq, Repr

/-- The `for` loop of `getData` over the remaining endpoints, instrumented
with the trace of processed endpoints.  The empty case is the code after the
loop: `if lastErr == nil { lastErr = fmt.Errorf("no endpoints found for %s", ...) };
return nil, lastErr`. -/
def getDataRun : List Endpoint → LoopState → RunOutcome × List TraceEntry
  | [], st => (.exhausted (st.lastErr.getD .noEndpointsFound), [])
  | ep :: rest, st =>
    match stepEndpoint ep st with
    | .next act st' =>
      let r := getDataRun rest st'
      (r.1, ⟨ep, st, act⟩ :: r.2)
    | .halt out act => (out, [⟨ep, st, act⟩])

/-- The Go-visible result of `getData`'s loop: `(*imageInspect, error)`
collapsed to `Except`. -/
def RunOutcome.toExcept : RunOutcome → Except GoErr Nat
  | .success img => .ok img
  | .earlyErr e => .error e
  | .exhausted e => .error e

/-- `getData` from the endpoint list on: the code before the loop
(repository parsing, endpoint discovery) only produces the `endpoints`
argument and is not part of the modelled behaviour. -/
def getData (eps : List Endpoint) : Except GoErr Nat :=
  (getDataRun eps initLoopState).1.toExcept

/-- The loop actions after which the Go loop keeps iterating (`continue`),
as opposed to the ones that made it return. -/
def LoopAction.isContinue : LoopAction → Bool
  | .skippedV1 | .constructFailed _ | .ignoredNoSupport _ _
  | .recordedNoSupport _ _ | .recordedConcrete _ _ => true
  | .fetchSucceeded _ | .abortedCtxDone _ | .abortedNoFallback _ => false

/-- The loop state after a trace entry, reconstructed from the state before
it and the recorded action. -/
def postState (t : TraceEntry) : LoopState :=
  match t.act with
  | .skippedV1 => t.pre
  | .constructFailed e => { t.pre with lastErr := some e }
  | .fetchSucceeded _ => t.pre
  | .abortedCtxDone _ => t.pre
  | .abortedNoFallback _ => t.pre
  | .ignoredNoSupport cv2 _ =>
      { t.pre with confirmedV2 := t.pre.confirmedV2 || cv2 }
  | .recordedNoSupport cv2 e =>
      { t.pre with lastErr := some e, confirmedV2 := t.pre.confirmedV2 || cv2 }
  | .recordedConcrete cv2 e => ⟨some e, true, t.pre.confirmedV2 || cv2⟩

/-- The error a trace entry stored into `lastErr`, if any. -/
def recOf (t : TraceEntry) : Option GoErr :=
  match t.act with
  | .constructFailed e => some e
  | .recordedNoSupport _ e => some e
  | .recordedConcrete _ e => some e
  | _ => none

/-- All errors a run remembered into `lastErr`, in order. -/
def recordedErrs (tr : List TraceEntry) : List GoErr :=
  tr.filterMap recOf

/-- The value of `lastErr` after processing a trace, starting from `init`. -/
def lastErrAfter (init : Option GoErr) (tr : List TraceEntry) : Option GoErr :=
  tr.foldl (fun acc d => match recOf d with | some e => some e | none => acc) init

/-- Model artifact hygiene: in Go the `no endpoints found` error is freshly
allocated by `fmt.Errorf` after the loop, so no endpoint's fetch failure can
be that very error value; this predicate states the corresponding
side-condition on the abstract endpoint list. -/
def wfEndpoints (eps : List Endpoint) : Prop :=
  ∀ ep ∈ eps, ∀ cv2 inner,
    ep.fetchResult = .error (.fallbackError cv2 inner) → inner ≠ .noEndpointsFound

/-! ## Go `path/filepath` (Unix): `Clean` and `Join`

`directory_transport.go` uses `filepath.Clean` (scope validation) and
`filepath.Join` (path construction).  `Clean` is modelled functionally over
the character list of the path, component by component, which is equivalent
to the byte-scanning loop of the Go implementation: split on `/`, drop empty
and `.` components, resolve `..` against a stack (popping a previous
component, absorbing at an absolute root, or accumulating leading `..` for
relative paths), then rejoin, returning `.` for an empty result. -/

/-- Split a character list on `/`; pieces keep no separator.  Mirrors the
component scanning of Go's `filepath.Clean`. -/
def splitSlash : List Char → List (List Char)
  | [] => [[]]
  | c :: cs =>
    if c = '/' then [] :: splitSlash cs
    else
      match splitSlash cs with
      | [] => [[c]]
      | p :: ps => (c :: p) :: ps

/-- Process one path component against the output stack (most recent first),
as Go's `Clean` does: `""` and `"."` are dropped; `".."` pops a previous real
component, is dropped at an absolute root, and accumulates otherwise; any
other component is pushed. -/
def pushComp (rooted : Bool) (stack : List (List Char)) (c : List Char) :
    List (List Char) :=
  if c = [] ∨ c = ['.'] then stack
  else if c = ['.', '.'] then
    match stack with
    | [] => if rooted then [] else [['.', '.']]
    | top :: rest => if top = ['.', '.'] then ['.', '.'] :: top :: rest else rest
  else c :: stack

/-- Join components with `/` (no leading or trailing separator). -/
def interSlash : List (List Char) → List Char
  | [] => []
  | [c] => c
  | c :: c' :: rest => c ++ '/' :: interSlash (c' :: rest)

/-- Go `filepath.Clean` (Unix) over a character list. -/
def cleanChars : List Char → List Char
  | [] => ['.']
  | s@(c :: _) =>
    let rooted : Bool := c == '/'
    let stack := (splitSlash s).foldl (pushComp rooted) []
    let body := interSlash stack.reverse
    if rooted then '/' :: body
    else if body = [] then ['.'] else body

/-- Go `filepath.Clean` (Unix). -/
def cleanPath (s : String) : String := ⟨cleanChars s.data⟩

/-- Go `filepath.Join` for two elements: empty elements are skipped, the
rest are joined with `/` and the result is `Clean`ed; all-empty input gives
the empty string. -/
def joinPath (a b : String) : String :=
  if a ≠ "" then cleanPath (a ++ "/" ++ b)
  else if b ≠ "" then cleanPath b
  else ""

-- Behaviour checks against Go's filepath.Clean:
/-- A single, already-clean path component: nonempty, separator-free and not
one of the special names `.` and `..`. -/
def isComp (c : List Char) : Prop :=
  c ≠ [] ∧ '/' ∉ c ∧ c ≠ ['.'] ∧ c ≠ ['.', '.']

/-! ## The directory transport (`src/directory/directory_transport.go`) -/

namespace directory

/-- The filesystem state as `explicitfilepath.ResolvePathToFullyExplicit`
observes it: a partial map from a user path to its fully explicit (absolute,
symlink-free) form.  That helper lives outside this repository; the directory
transport only consumes its result. -/
structure FS where
  resolve : String → Option String

/-- `dirReference` (directory_transport.go lines 50-59): the path as
specified by the user plus the resolved absolute path. -/
structure dirReference where
  path : String
  resolvedPath : String
deriving DecidableEq, Repr

/-- `NewReference` (lines 70-76): resolve the path; on success build the
reference carrying both the user path and the resolved path. -/
def NewReference (fs : FS) (path : String) : Option dirReference :=
  match fs.resolve path with
  | none => none
  | some resolved => some ⟨path, resolved⟩

/-- `dirTransport.ParseReference` (lines 25-27): delegates to
`NewReference`. -/
def ParseReference (fs : FS) (reference : String) : Option dirReference :=
  NewReference fs reference

/-- `dirReference.StringWithinTransport` (lines 87-89): returns the user
path unchanged. -/
def StringWithinTransport (ref : dirReference) : String := ref.path

/-- The three error cases of `ValidatePolicyConfigurationScope`, by the
message they produce. -/
inductive ScopeErr where
  | notAbsolute
  | forbiddenRoot
  | nonCanonical (suggested : String)
deriving DecidableEq, Repr

/-- Go `strings.HasPrefix`. -/
def hasPrefixStr (s pre : String) : Bool := pre.data.isPrefixOf s.data

/-- `dirTransport.ValidatePolicyConfigurationScope` (lines 33-47): reject a
scope that is not absolute, is exactly `/`, or differs from its
`filepath.Clean` form; accept everything else. -/
def ValidatePolicyConfigurationScope (scope : String) : Option ScopeErr :=
  if hasPrefixStr scope "/" = false then some .notAbsolute
  else if scope = "/" then some .forbiddenRoot
  else if cleanPath scope ≠ scope then some (.nonCanonical (cleanPath scope))
  else none

/-- Go `strings.TrimPrefix`. -/
def trimPrefixStr (s pre : String) : String :=
  if pre.data.isPrefixOf s.data = true then ⟨s.data.drop pre.data.length⟩
  else s

/-- `dirReference.manifestPath` (lines 156-158). -/
def manifestPath (ref : dirReference) : String :=
  joinPath ref.path "manifest.json"

/-- `dirReference.layerPath` (lines 161-164): only the literal `sha256:`
prefix is trimmed. -/
def layerPath (ref : dirReference) (digest : String) : String :=
  joinPath ref.path (trimPrefixStr digest "sha256:" ++ ".tar")

/-- `dirReference.signaturePath` (lines 167-169): 1-based on disk for a
0-based index. -/
def signaturePath (ref : dirReference) (index : Nat) : String :=
  joinPath ref.path ("signature-" ++ Nat.repr (index + 1))

end directory

/-! ## The docker transport's tag/digest normalization

The docker transport's implementation (`ParseReference`, `NewReference` of
the docker package) is not among the sources; only its tests are
(`src/unnamed/part_000`).  The reference-normalization step is therefore
modelled from the spec and those tests, at the level of an input already
split into its grammatical components (repository, optional tag, optional
digest). -/

namespace docker

/-- An input name already split into its components by the reference
grammar: the repository part, an optional explicit tag, an optional explicit
digest.  For `ParseReference` these come from the transport-scoped string;
for `NewReference` they are the `NamedTagged`/`Canonical` facets of an
already-structured name. -/
structure RefInput where
  repo : String
  tag : Option String
  digest : Option String
deriving DecidableEq, Repr

/-- A docker reference after normalization. -/
structure dockerReference where
  repo : String
  tag : Option String
  digest : Option String
deriving DecidableEq, Repr

/-- Modelled from the spec: the docker transport's `ParseReference` feeds
the string through the upstream naming library, whose normalization drops an
explicit tag when an explicit digest is also present ("if the input supplied
both, digest wins and tag is dropped"), and applies the default tag when
neither a tag nor a digest is given; per the test table of
`src/unnamed/part_000` (`testParseReference`, the `"//busybox:latest@sha256:..."`
row). -/
def ParseReference (raw : RefInput) : Option dockerReference :=
  match raw.digest, raw.tag with
  | some d, _ => some ⟨raw.repo, none, some d⟩
  | none, some t => some ⟨raw.repo, some t, none⟩
  | none, none => some ⟨raw.repo, some "latest", none⟩

/-- Modelled from the spec: the docker transport's `NewReference` takes an
already-structured name; per `TestNewReference` of `src/unnamed/part_000` it
rejects a name with neither tag nor digest (lines 83-87) and also rejects a
name carrying both a tag and a digest (lines 89-96). -/
def NewReference (raw : RefInput) : Option dockerReference :=
  match raw.tag, raw.digest with
  | none, none => none
  | some _, some _ => none
  | t, d => some ⟨raw.repo, t, d⟩

end docker

/-! ## Behaviour checks of the embeddings on concrete inputs -/

-- Scratch checks of the embedding on the spec's fallback-ordering example:
-- endpoints [V2-a (ErrNoSupport), V2-b (confirmed, generic), V1-c].
example :
    getData [⟨.v2, .error (.fallbackError false (.errNoSupport 1)), false⟩,
             ⟨.v2, .error (.fallbackError true (.generic 2)), false⟩,
             ⟨.v1, .ok 9, false⟩] = .error (.generic 2) := by decide

example :
    (getDataRun [⟨.v2, .error (.fallbackError false (.errNoSupport 1)), false⟩,
                 ⟨.v2, .error (.fallbackError true (.generic 2)), false⟩,
                 ⟨.v1, .ok 9, false⟩] initLoopState).2.map (·.act) =
      [.recordedNoSupport false (.errNoSupport 1),
       .recordedConcrete true (.generic 2),
       .skippedV1] := by decide

example : getData [] = .error .noEndpointsFound := by decide

example : cleanPath "/a/b/" = "/a/b" := by decide
example : cleanPath "//" = "/" := by decide
example : cleanPath "a/../b" = "b" := by decide
example : cleanPath "../../a" = "../../a" := by decide
example : cleanPath "/.." = "/" := by decide
example : cleanPath "." = "." := by decide
example : cleanPath "" = "." := by decide
example : cleanPath "./a//b" = "a/b" := by decide
example : cleanPath "/a/b/../../c" = "/c" := by decide
example : joinPath "/tmp/dir" "manifest.json" = "/tmp/dir/manifest.json" := by decide
example : joinPath "foo/" "manifest.json" = "foo/manifest.json" := by decide

-- Behaviour checks against the source conventions:
example : directory.manifestPath ⟨"/tmp/dir", "/tmp/dir"⟩ =
    "/tmp/dir/manifest.json" := by decide
example : directory.layerPath ⟨"/tmp/dir", "/tmp/dir"⟩
    "sha256:0123" = "/tmp/dir/0123.tar" := by decide
example : directory.signaturePath ⟨"/tmp/dir", "/tmp/dir"⟩ 0 =
    "/tmp/dir/signature-1" := by decide
example : directory.ValidatePolicyConfigurationScope "/a/b" = none := by decide
example : directory.ValidatePolicyConfigurationScope "/a/b/" =
    some (.nonCanonical "/a/b") := by decide

-- Behaviour checks against the test table of src/unnamed/part_000:
example : docker.ParseReference ⟨"busybox", some "latest", some "sha256:x"⟩ =
    some ⟨"busybox", none, some "sha256:x"⟩ := by decide
example : docker.ParseReference ⟨"busybox", none, none⟩ =
    some ⟨"busybox", some "latest", none⟩ := by decide
example : docker.NewReference ⟨"busybox", none, none⟩ = none := by decide
example : docker.NewReference ⟨"busybox", some "notlatest", none⟩ =
    some ⟨"busybox", some "notlatest", none⟩ := by decide

/-! ### Structural lemmas about one loop iteration -/

lemma stepEndpoint_next_post (ep : Endpoint) (st : LoopState) (act : LoopAction)
    (st' : LoopState) (h : stepEndpoint ep st = .next act st') :
    st' = postState ⟨ep, st, act⟩ := by
  unfold stepEndpoint at h
  repeat' split at h
  all_goals cases h
  all_goals rfl

lemma stepEndpoint_next_mono (ep : Endpoint) (st : LoopState) (act : LoopAction)
    (st' : LoopState) (h : stepEndpoint ep st = .next act st') :
    (st.confirmedV2 = true → st'.confirmedV2 = true) ∧
      (st.discard = true → st'.discard = true) := by
  unfold stepEndpoint at h
  repeat' split at h
  all_goals cases h
  all_goals constructor <;> intro hh <;> simp [hh]

lemma stepEndpoint_halt_not_continue (ep : Endpoint) (st : LoopState)
    (out : RunOutcome) (act : LoopAction) (h : stepEndpoint ep st = .halt out act) :
    act.isContinue = false := by
  unfold stepEndpoint at h
  repeat' split at h
  all_goals cases h
  all_goals rfl

lemma stepEndpoint_skip (ep : Endpoint) (st : LoopState)
    (h1 : st.confirmedV2 = true) (h2 : ep.version = .v1) :
    stepEndpoint ep st = .next .skippedV1 st := by
  simp [stepEndpoint, h1, h2]

lemma stepEndpoint_v1 (ep : Endpoint) (st : LoopState) (h2 : ep.version = .v1) :
    stepEndpoint ep st = .next .skippedV1 st ∨
      stepEndpoint ep st = .next (.constructFailed (.unknownVersion .v1))
        { st with lastErr := some (.unknownVersion .v1) } := by
  by_cases h1 : st.confirmedV2 = true
  · exact Or.inl (stepEndpoint_skip ep st h1 h2)
  · right
    simp [stepEndpoint, h1, h2, newManifestFetcher]

lemma stepEndpoint_recordedConcrete (ep : Endpoint) (st : LoopState)
    (cv2 : Bool) (e : GoErr) (st' : LoopState)
    (h : stepEndpoint ep st = .next (.recordedConcrete cv2 e) st') :
    e.isNoSupport = false ∧ ep.fetchResult = .error (.fallbackError cv2 e) := by
  unfold stepEndpoint at h
  repeat' split at h
  all_goals cases h
  all_goals simp_all

lemma stepEndpoint_recordedNoSupport (ep : Endpoint) (st : LoopState)
    (cv2 : Bool) (e : GoErr) (st' : LoopState)
    (h : stepEndpoint ep st = .next (.recordedNoSupport cv2 e) st') :
    st.discard = false ∧ e.isNoSupport = true := by
  unfold stepEndpoint at h
  repeat' split at h
  all_goals cases h
  all_goals simp_all

lemma stepEndpoint_constructFailed (ep : Endpoint) (st : LoopState)
    (e : GoErr) (st' : LoopState)
    (h : stepEndpoint ep st = .next (.constructFailed e) st') :
    e = .unknownVersion ep.version ∧ ep.version ≠ .v2 := by
  unfold stepEndpoint at h
  repeat' split at h
  all_goals cases h
  all_goals simp_all [newManifestFetcher]
  all_goals rename_i hv _
  all_goals cases hve : ep.version <;> simp_all

lemma getDataRun_trace_nil (eps : List Endpoint) (st : LoopState)
    (out : RunOutcome) (h : getDataRun eps st = (out, [])) :
    eps = [] ∧ out = .exhausted (st.lastErr.getD .noEndpointsFound) := by
  cases eps with
  | nil =>
    simp only [getDataRun, Prod.mk.injEq] at h
    exact ⟨rfl, h.1.symm⟩
  | cons ep rest =>
    simp only [getDataRun] at h
    cases hs : stepEndpoint ep st with
    | next act st' => rw [hs] at h; simp at h
    | halt o a => rw [hs] at h; simp at h

lemma getDataRun_head_pre (eps : List Endpoint) (st : LoopState)
    (out : RunOutcome) (d : TraceEntry) (tr : List TraceEntry)
    (h : getDataRun eps st = (out, d :: tr)) : d.pre = st := by
  cases eps with
  | nil => simp [getDataRun] at h
  | cons ep rest =>
    simp only [getDataRun] at h
    cases hs : stepEndpoint ep st with
    | next act st' =>
      rw [hs] at h
      simp only [Prod.mk.injEq, List.cons.injEq] at h
      rw [← h.2.1]
    | halt o a =>
      rw [hs] at h
      simp only [Prod.mk.injEq, List.cons.injEq] at h
      rw [← h.2.1]

lemma getDataRun_mem_facts (eps : List Endpoint) (st : LoopState) :
    ∀ d ∈ (getDataRun eps st).2,
      d.ep ∈ eps ∧
      (d.pre.confirmedV2 = true → d.ep.version = .v1 → d.act = .skippedV1) ∧
      (d.ep.version = .v1 → d.act = .skippedV1 ∨
        d.act = .constructFailed (.unknownVersion .v1)) ∧
      (∀ cv2 e, d.act = .recordedConcrete cv2 e →
        e.isNoSupport = false ∧ d.ep.fetchResult = .error (.fallbackError cv2 e)) ∧
      (∀ e, d.act = .constructFailed e → e = .unknownVersion d.ep.version) ∧
      (∀ cv2 e, d.act = .recordedNoSupport cv2 e → e.isNoSupport = true) := by
  induction eps generalizing st with
  | nil => intro d hd; simp [getDataRun] at hd
  | cons ep rest ih =>
    intro d hd
    simp only [getDataRun] at hd
    cases hs : stepEndpoint ep st with
    | next act st' =>
      rw [hs] at hd
      simp only [List.mem_cons] at hd
      rcases hd with hd | hd
      · subst hd
        refine ⟨List.mem_cons_self _ _, ?_, ?_, ?_, ?_, ?_⟩
        · intro h1 h2
          have := stepEndpoint_skip ep st h1 h2
          rw [this] at hs
          cases hs
          rfl
        · intro h2
          rcases stepEndpoint_v1 ep st h2 with hh | hh <;> rw [hh] at hs <;>
            cases hs
          · exact Or.inl rfl
          · exact Or.inr rfl
        · intro cv2 e he
          subst he
          exact stepEndpoint_recordedConcrete ep st cv2 e st' hs
        · intro e he
          have ha : act = .constructFailed e := he
          rw [ha] at hs
          exact (stepEndpoint_constructFailed ep st e st' hs).1
        · intro cv2 e he
          have ha : act = .recordedNoSupport cv2 e := he
          rw [ha] at hs
          exact (stepEndpoint_recordedNoSupport ep st cv2 e st' hs).2
      · have := ih st' d hd
        exact ⟨List.mem_cons_of_mem _ this.1, this.2⟩
    | halt o a =>
      rw [hs] at hd
      simp only [List.mem_cons, List.not_mem_nil, or_false] at hd
      subst hd
      have hcont := stepEndpoint_halt_not_continue ep st o a hs
      refine ⟨List.mem_cons_self _ _, ?_, ?_, ?_, ?_, ?_⟩
      · intro h1 h2
        have := stepEndpoint_skip ep st h1 h2
        rw [this] at hs
        cases hs
      · intro h2
        rcases stepEndpoint_v1 ep st h2 with hh | hh <;> rw [hh] at hs <;> cases hs
      · intro cv2 e he
        exfalso
        have ha : a = .recordedConcrete cv2 e := he
        rw [ha] at hcont
        simp [LoopAction.isContinue] at hcont
      · intro e he
        exfalso
        have ha : a = .constructFailed e := he
        rw [ha] at hcont
        simp [LoopAction.isContinue] at hcont
      · intro cv2 e he
        exfalso
        have ha : a = .recordedNoSupport cv2 e := he
        rw [ha] at hcont
        simp [LoopAction.isContinue] at hcont

lemma getDataRun_conf_mono (eps : List Endpoint) (st : LoopState)
    (hc : st.confirmedV2 = true) :
    ∀ d ∈ (getDataRun eps st).2, d.pre.confirmedV2 = true := by
  induction eps generalizing st with
  | nil => intro d hd; simp [getDataRun] at hd
  | cons ep rest ih =>
    intro d hd
    simp only [getDataRun] at hd
    cases hs : stepEndpoint ep st with
    | next act st' =>
      rw [hs] at hd
      simp only [List.mem_cons] at hd
      rcases hd with hd | hd
      · subst hd; exact hc
      · exact ih st' ((stepEndpoint_next_mono ep st act st' hs).1 hc) d hd
    | halt o a =>
      rw [hs] at hd
      simp only [List.mem_cons, List.not_mem_nil, or_false] at hd
      subst hd; exact hc

lemma getDataRun_split (eps : List Endpoint) (st : LoopState)
    (out : RunOutcome) (l₁ : List TraceEntry) (c : TraceEntry)
    (l₂ : List TraceEntry) (h : getDataRun eps st = (out, l₁ ++ c :: l₂))
    (hcont : c.act.isContinue = true) :
    ∃ eps', getDataRun eps' (postState c) = (out, l₂) := by
  induction eps generalizing st l₁ with
  | nil => simp [getDataRun] at h
  | cons ep rest ih =>
    simp only [getDataRun] at h
    cases hs : stepEndpoint ep st with
    | next act st' =>
      rw [hs] at h
      simp only [Prod.mk.injEq] at h
      cases l₁ with
      | nil =>
        simp only [List.nil_append, List.cons.injEq] at h
        refine ⟨rest, ?_⟩
        have hpost : postState c = st' := by
          rw [← h.2.1]
          exact (stepEndpoint_next_post ep st act st' hs).symm
        rw [hpost, Prod.ext_iff]
        exact ⟨h.1, h.2.2⟩
      | cons x l₁' =>
        simp only [List.cons_append, List.cons.injEq] at h
        refine ih st' l₁' ?_
        rw [Prod.ext_iff]
        exact ⟨h.1, h.2.2⟩
    | halt o a =>
      rw [hs] at h
      simp only [Prod.mk.injEq] at h
      cases l₁ with
      | nil =>
        simp only [List.nil_append, List.cons.injEq] at h
        exfalso
        have hhalt := stepEndpoint_halt_not_continue ep st o a hs
        have hc : c.act = a := by rw [← h.2.1]
        rw [hc, hhalt] at hcont
        cases hcont
      | cons x l₁' =>
        exfalso
        have h2 := h.2
        simp only [List.cons_append, List.cons.injEq] at h2
        have := h2.2
        simp at this

lemma stepEndpoint_halt_not_exhausted (ep : Endpoint) (st : LoopState)
    (out : RunOutcome) (act : LoopAction)
    (h : stepEndpoint ep st = .halt out act) : ∀ e, out ≠ .exhausted e := by
  unfold stepEndpoint at h
  repeat' split at h
  all_goals cases h
  all_goals intro e he
  all_goals cases he

lemma getDataRun_cons_next (ep : Endpoint) (rest : List Endpoint)
    (st : LoopState) (act : LoopAction) (st' : LoopState)
    (hs : stepEndpoint ep st = .next act st') :
    getDataRun (ep :: rest) st =
      ((getDataRun rest st').1, ⟨ep, st, act⟩ :: (getDataRun rest st').2) := by
  simp only [getDataRun]
  rw [hs]

lemma getDataRun_cons_halt (ep : Endpoint) (rest : List Endpoint)
    (st : LoopState) (out : RunOutcome) (act : LoopAction)
    (hs : stepEndpoint ep st = .halt out act) :
    getDataRun (ep :: rest) st = (out, [⟨ep, st, act⟩]) := by
  simp only [getDataRun]
  rw [hs]

/-- Once `discardNoSupportErrors` is set and `lastErr` holds a
non-`ErrNoSupport` error, every later iteration still has the flag set,
never stores an `ErrNoSupport` error, and an exhausted run ends with a
non-`ErrNoSupport` error that is either the current one or one recorded
later (by a concrete fallback failure or a fetcher-construction failure). -/
lemma getDataRun_discard_inv (eps : List Endpoint) (st : LoopState)
    (e₀ : GoErr) (hd : st.discard = true) (hl : st.lastErr = some e₀)
    (hns : e₀.isNoSupport = false) :
    (∀ d ∈ (getDataRun eps st).2, d.pre.discard = true ∧
        ∀ cv2 e', d.act ≠ .recordedNoSupport cv2 e') ∧
      (∀ err, (getDataRun eps st).1 = .exhausted err →
        err.isNoSupport = false ∧
          (err = e₀ ∨ ∃ d ∈ (getDataRun eps st).2,
            (∃ cv2, d.act = .recordedConcrete cv2 err) ∨
              d.act = .constructFailed err)) := by
  induction eps generalizing st e₀ with
  | nil =>
    constructor
    · intro d hd'
      simp [getDataRun] at hd'
    · intro err herr
      simp only [getDataRun, hl, Option.getD_some, RunOutcome.exhausted.injEq] at herr
      subst herr
      exact ⟨hns, Or.inl rfl⟩
  | cons ep rest ih =>
    cases hs : stepEndpoint ep st with
    | next act st' =>
      have hpost := stepEndpoint_next_post ep st act st' hs
      have hmono := stepEndpoint_next_mono ep st act st' hs
      rw [getDataRun_cons_next ep rest st act st' hs]
      have hnr : ∀ cv2 e', act ≠ .recordedNoSupport cv2 e' := by
        intro cv2 e' ha
        rw [ha] at hs
        have := (stepEndpoint_recordedNoSupport ep st cv2 e' st' hs).1
        rw [hd] at this
        cases this
      -- pick the state invariant that holds after this step
      have hnext : ∃ e₁, st'.discard = true ∧ st'.lastErr = some e₁ ∧
          e₁.isNoSupport = false ∧
          (e₁ = e₀ ∨ (∃ cv2, act = .recordedConcrete cv2 e₁) ∨
            act = .constructFailed e₁) := by
        subst hpost
        cases act with
        | skippedV1 => exact ⟨e₀, hd, hl, hns, Or.inl rfl⟩
        | constructFailed e =>
          have he := (stepEndpoint_constructFailed ep st e _ hs).1
          refine ⟨e, hd, rfl, ?_, Or.inr (Or.inr rfl)⟩
          rw [he]
          rfl
        | fetchSucceeded img => exact ⟨e₀, hd, hl, hns, Or.inl rfl⟩
        | abortedCtxDone e => exact ⟨e₀, hd, hl, hns, Or.inl rfl⟩
        | abortedNoFallback e => exact ⟨e₀, hd, hl, hns, Or.inl rfl⟩
        | ignoredNoSupport cv2 e => exact ⟨e₀, hd, hl, hns, Or.inl rfl⟩
        | recordedNoSupport cv2 e => exact absurd rfl (hnr cv2 e)
        | recordedConcrete cv2 e =>
          have he := (stepEndpoint_recordedConcrete ep st cv2 e _ hs).1
          exact ⟨e, rfl, rfl, he, Or.inr (Or.inl ⟨cv2, rfl⟩)⟩
      obtain ⟨e₁, hd', hl', hns', hsrc⟩ := hnext
      have IH := ih st' e₁ hd' hl' hns'
      constructor
      · intro d hmem
        simp only [List.mem_cons] at hmem
        rcases hmem with hmem | hmem
        · subst hmem
          exact ⟨hd, hnr⟩
        · exact IH.1 d hmem
      · intro err herr
        obtain ⟨h1, h2⟩ := IH.2 err herr
        refine ⟨h1, ?_⟩
        rcases h2 with h2 | ⟨d, hdm, h2⟩
        · subst h2
          rcases hsrc with h3 | h3 | h3
          · exact Or.inl h3
          · exact Or.inr ⟨⟨ep, st, act⟩, List.mem_cons_self _ _, Or.inl h3⟩
          · exact Or.inr ⟨⟨ep, st, act⟩, List.mem_cons_self _ _, Or.inr h3⟩
        · exact Or.inr ⟨d, List.mem_cons_of_mem _ hdm, h2⟩
    | halt o a =>
      rw [getDataRun_cons_halt ep rest st o a hs]
      have hcont := stepEndpoint_halt_not_continue ep st o a hs
      constructor
      · intro d hmem
        simp only [List.mem_cons, List.not_mem_nil, or_false] at hmem
        subst hmem
        refine ⟨hd, ?_⟩
        intro cv2 e' ha
        have ha' : a = .recordedNoSupport cv2 e' := ha
        rw [ha'] at hcont
        simp [LoopAction.isContinue] at hcont
      · intro err herr
        exact absurd herr (stepEndpoint_halt_not_exhausted ep st o a hs err)

/-- An exhausted run returns exactly the `lastErr` bookkeeping of its trace,
with the `no endpoints found` default when nothing was recorded. -/
lemma getDataRun_exhausted_lastErr (eps : List Endpoint) (st : LoopState)
    (err : GoErr) (tr : List TraceEntry)
    (h : getDataRun eps st = (.exhausted err, tr)) :
    err = (lastErrAfter st.lastErr tr).getD .noEndpointsFound := by
  induction eps generalizing st tr with
  | nil =>
    simp only [getDataRun, Prod.mk.injEq, RunOutcome.exhausted.injEq] at h
    rw [← h.2, ← h.1]
    simp [lastErrAfter]
  | cons ep rest ih =>
    cases hs : stepEndpoint ep st with
    | next act st' =>
      rw [getDataRun_cons_next ep rest st act st' hs] at h
      simp only [Prod.mk.injEq] at h
      cases tr with
      | nil => cases h.2
      | cons d tr' =>
        have hd : d = ⟨ep, st, act⟩ := by
          have := h.2
          simp only [List.cons.injEq] at this
          exact this.1.symm
        have htr' : (getDataRun rest st').2 = tr' := by
          have := h.2
          simp only [List.cons.injEq] at this
          exact this.2
        have hrec : getDataRun rest st' = (.exhausted err, tr') := by
          rw [Prod.ext_iff]
          exact ⟨h.1, htr'⟩
        have IH := ih st' tr' hrec
        rw [IH, hd]
        have hpost := stepEndpoint_next_post ep st act st' hs
        have : lastErrAfter st.lastErr (⟨ep, st, act⟩ :: tr') =
            lastErrAfter st'.lastErr tr' := by
          subst hpost
          cases act <;> simp [lastErrAfter, recOf, postState]
        rw [this]
    | halt o a =>
      rw [getDataRun_cons_halt ep rest st o a hs] at h
      simp only [Prod.mk.injEq] at h
      exact absurd h.1 (stepEndpoint_halt_not_exhausted ep st o a hs err)

lemma getLast?_cons_or {α : Type} (a : α) (l : List α) :
    (a :: l).getLast? = l.getLast?.or (some a) := by
  cases l with
  | nil => simp
  | cons b l' =>
    rw [List.getLast?_cons_cons]
    have hne : (b :: l').getLast?.isSome := by
      rw [List.getLast?_isSome]
      simp
    obtain ⟨r, hr⟩ := Option.isSome_iff_exists.mp hne
    rw [hr]
    rfl

lemma lastErrAfter_eq_getLast (tr : List TraceEntry) :
    ∀ init, lastErrAfter init tr = (recordedErrs tr).getLast?.or init := by
  induction tr with
  | nil => intro init; simp [lastErrAfter, recordedErrs]
  | cons d tr ih =>
    intro init
    have hstep : lastErrAfter init (d :: tr) =
        lastErrAfter (match recOf d with | some e => some e | none => init) tr := by
      simp [lastErrAfter]
    rw [hstep, ih]
    cases hrec : recOf d with
    | none =>
      simp only [recordedErrs, List.filterMap_cons, hrec]
    | some e =>
      simp only [recordedErrs, List.filterMap_cons, hrec]
      rw [getLast?_cons_or]
      cases hlast : (List.filterMap recOf tr).getLast? <;> rfl

lemma stepEndpoint_next_continue (ep : Endpoint) (st : LoopState)
    (act : LoopAction) (st' : LoopState)
    (h : stepEndpoint ep st = .next act st') : act.isContinue = true := by
  unfold stepEndpoint at h
  repeat' split at h
  all_goals cases h
  all_goals rfl

/-- What the run did at any entry of its trace: either the iteration
continued (and the rest of the trace is a run from the successor state), or
it halted the loop there and the entry is the last one. -/
lemma getDataRun_entry_step (eps : List Endpoint) (st : LoopState)
    (out : RunOutcome) (l₁ : List TraceEntry) (c : TraceEntry)
    (l₂ : List TraceEntry) (h : getDataRun eps st = (out, l₁ ++ c :: l₂)) :
    (∃ st', stepEndpoint c.ep c.pre = .next c.act st' ∧
        ∃ eps', getDataRun eps' st' = (out, l₂)) ∨
      (stepEndpoint c.ep c.pre = .halt out c.act ∧ l₂ = []) := by
  induction eps generalizing st l₁ with
  | nil => simp [getDataRun] at h
  | cons ep rest ih =>
    cases hs : stepEndpoint ep st with
    | next act st' =>
      rw [getDataRun_cons_next ep rest st act st' hs] at h
      simp only [Prod.mk.injEq] at h
      cases l₁ with
      | nil =>
        simp only [List.nil_append, List.cons.injEq] at h
        have hc := h.2.1
        subst hc
        refine Or.inl ⟨st', hs, rest, ?_⟩
        rw [Prod.ext_iff]
        exact ⟨h.1, h.2.2⟩
      | cons x l₁' =>
        simp only [List.cons_append, List.cons.injEq] at h
        refine ih st' l₁' ?_
        rw [Prod.ext_iff]
        exact ⟨h.1, h.2.2⟩
    | halt o a =>
      rw [getDataRun_cons_halt ep rest st o a hs] at h
      simp only [Prod.mk.injEq] at h
      cases l₁ with
      | nil =>
        simp only [List.nil_append, List.cons.injEq] at h
        have hc := h.2.1
        have hout := h.1
        subst hc hout
        exact Or.inr ⟨hs, h.2.2.symm⟩
      | cons x l₁' =>
        exfalso
        have h2 := h.2
        simp only [List.cons_append, List.cons.injEq] at h2
        have := h2.2
        simp at this

lemma postState_confirmedV2_mono (t : TraceEntry)
    (h : t.pre.confirmedV2 = true) : (postState t).confirmedV2 = true := by
  cases ha : t.act <;> simp [postState, ha, h]

lemma recordedErrs_ne_noEndpoints (eps : List Endpoint) (st : LoopState)
    (hwf : wfEndpoints eps) :
    ∀ e ∈ recordedErrs (getDataRun eps st).2, e ≠ .noEndpointsFound := by
  intro e he
  simp only [recordedErrs, List.mem_filterMap] at he
  obtain ⟨d, hdm, hrec⟩ := he
  have hf := getDataRun_mem_facts eps st d hdm
  cases ha : d.act with
  | constructFailed e1 =>
    simp only [recOf, ha] at hrec
    injection hrec with hrec
    subst hrec
    have hu := hf.2.2.2.2.1 e1 ha
    rw [hu]
    intro hcon
    cases hcon
  | recordedNoSupport cv2 e1 =>
    simp only [recOf, ha] at hrec
    injection hrec with hrec
    subst hrec
    have hn := hf.2.2.2.2.2 cv2 e1 ha
    cases e1 <;> simp [GoErr.isNoSupport] at hn ⊢
  | recordedConcrete cv2 e1 =>
    simp only [recOf, ha] at hrec
    injection hrec with hrec
    subst hrec
    have hc := (hf.2.2.2.1 cv2 e1 ha).2
    exact hwf d.ep hf.1 cv2 e1 hc
  | skippedV1 => simp only [recOf, ha] at hrec; cases hrec
  | fetchSucceeded img => simp only [recOf, ha] at hrec; cases hrec
  | abortedCtxDone e1 => simp only [recOf, ha] at hrec; cases hrec
  | abortedNoFallback e1 => simp only [recOf, ha] at hrec; cases hrec
  | ignoredNoSupport cv2 e1 => simp only [recOf, ha] at hrec; cases hrec

lemma stepEndpoint_v2_err (ep : Endpoint) (st : LoopState) (e : GoErr)
    (hv : ep.version = .v2) (hf : ep.fetchResult = .error e) :
    (ep.ctxDone = true →
        stepEndpoint ep st = .halt (.earlyErr e) (.abortedCtxDone e)) ∧
      (ep.ctxDone = false → e.isFallback = false →
        stepEndpoint ep st = .halt (.earlyErr e) (.abortedNoFallback e)) := by
  constructor
  · intro hd
    simp [stepEndpoint, hv, hf, hd, newManifestFetcher]
  · intro hd hfb
    cases e <;> simp_all [stepEndpoint, hv, hf, hd, newManifestFetcher, GoErr.isFallback]

lemma splitSlash_ne_nil (s : List Char) : splitSlash s ≠ [] := by
  cases s with
  | nil => simp [splitSlash]
  | cons c cs =>
    unfold splitSlash
    split
    · simp
    · cases h : splitSlash cs <;> simp

lemma splitSlash_no_slash (s : List Char) (h : '/' ∉ s) : splitSlash s = [s] := by
  induction s with
  | nil => rfl
  | cons c cs ih =>
    simp only [List.mem_cons, not_or] at h
    unfold splitSlash
    rw [if_neg (fun hc => h.1 hc.symm)]
    rw [ih h.2]

lemma splitSlash_append (s : List Char) (hs : '/' ∉ s) :
    ∀ p, splitSlash (p ++ '/' :: s) = splitSlash p ++ [s] := by
  intro p
  induction p with
  | nil =>
    show splitSlash ('/' :: s) = [[]] ++ [s]
    unfold splitSlash
    rw [if_pos rfl, splitSlash_no_slash s hs]
    rfl
  | cons c p' ih =>
    show splitSlash (c :: (p' ++ '/' :: s)) = splitSlash (c :: p') ++ [s]
    unfold splitSlash
    by_cases hc : c = '/'
    · rw [if_pos hc, if_pos hc, ih]
      rfl
    · rw [if_neg hc, if_neg hc, ih]
      cases hp : splitSlash p' with
      | nil => exact absurd hp (splitSlash_ne_nil p')
      | cons q qs => rfl

lemma interSlash_append_single (s : List Char) :
    ∀ l, l ≠ [] → interSlash (l ++ [s]) = interSlash l ++ '/' :: s := by
  intro l
  induction l with
  | nil => intro h; exact absurd rfl h
  | cons c l' ih =>
    intro _
    cases l' with
    | nil => rfl
    | cons c' rest =>
      show interSlash (c :: (c' :: rest) ++ [s]) =
        (c ++ '/' :: interSlash (c' :: rest)) ++ '/' :: s
      have := ih (by simp)
      show c ++ '/' :: interSlash ((c' :: rest) ++ [s]) =
        (c ++ '/' :: interSlash (c' :: rest)) ++ '/' :: s
      rw [this]
      simp

/-- Appending `/component` to a path that `Clean` leaves unchanged (and that
is not `/` or `.`) again yields a `Clean`-fixed path, so `Clean` returns the
plain concatenation. -/
lemma cleanChars_append_comp (p s : List Char) (hp : cleanChars p = p)
    (hroot : p ≠ ['/']) (hdot : p ≠ ['.']) (hs : isComp s) :
    cleanChars (p ++ '/' :: s) = p ++ '/' :: s := by
  obtain ⟨hs1, hs2, hs3, hs4⟩ := hs
  cases p with
  | nil => exact absurd hp.symm (by simp [cleanChars])
  | cons c p' =>
    have hsplit := splitSlash_append s hs2 (c :: p')
    have hpush : ∀ stack, pushComp (c == '/') stack s = s :: stack := by
      intro stack
      unfold pushComp
      rw [if_neg (by simp [hs1, hs3]), if_neg hs4]
    -- unfold the two cleanChars applications
    rw [show (c :: p') ++ '/' :: s = c :: (p' ++ '/' :: s) from rfl]
    unfold cleanChars at hp ⊢
    simp only at hp ⊢
    rw [show c :: (p' ++ '/' :: s) = (c :: p') ++ '/' :: s from rfl, hsplit,
      List.foldl_append]
    simp only [List.foldl_cons, List.foldl_nil]
    rw [hpush]
    generalize hstack : List.foldl (pushComp (c == '/')) [] (splitSlash (c :: p')) = stack at hp ⊢
    clear hstack
    cases hcr : (c == '/') with
    | true =>
      rw [hcr] at hp
      simp only [if_true] at hp ⊢
      cases stack with
      | nil =>
        exfalso
        simp only [List.reverse_nil] at hp
        exact hroot (by rw [← hp]; rfl)
      | cons t ts =>
        rw [show (s :: t :: ts).reverse = (t :: ts).reverse ++ [s] by simp]
        rw [interSlash_append_single s ((t :: ts).reverse) (by simp)]
        rw [← hp]
        simp
    | false =>
      rw [hcr] at hp
      simp only [Bool.false_eq_true, if_false] at hp ⊢
      cases stack with
      | nil =>
        exfalso
        simp only [List.reverse_nil] at hp
        exact hdot (by rw [← hp]; rfl)
      | cons t ts =>
        rw [show (s :: t :: ts).reverse = (t :: ts).reverse ++ [s] by simp]
        rw [interSlash_append_single s ((t :: ts).reverse) (by simp)]
        rw [if_neg (by simp)]
        split at hp
        · exfalso
          exact hdot (by rw [← hp])
        · rw [hp]

lemma String.eq_of_data (a b : String) (h : a.data = b.data) : a = b := by
  cases a
  cases b
  simp_all

lemma joinPath_comp (p s : String) (hp : cleanPath p = p) (hroot : p ≠ "/")
    (hdot : p ≠ ".") (hs : isComp s.data) :
    joinPath p s = ⟨p.data ++ '/' :: s.data⟩ := by
  have hpne : p ≠ "" := by
    intro h
    rw [h] at hp
    exact absurd hp (by decide)
  have hcp : cleanChars p.data = p.data := congrArg String.data hp
  have hr : p.data ≠ ['/'] := by
    intro h
    exact hroot (String.eq_of_data p "/" h)
  have hd : p.data ≠ ['.'] := by
    intro h
    exact hdot (String.eq_of_data p "." h)
  unfold joinPath
  rw [if_pos hpne]
  have hdata : (p ++ "/" ++ s).data = p.data ++ '/' :: s.data := by
    rw [String.data_append, String.data_append]
    simp
  unfold cleanPath
  rw [hdata, cleanChars_append_comp p.data s.data hcp hr hd hs]

lemma digitChar_ne_slash (n : Nat) (hn : n < 10) : Nat.digitChar n ≠ '/' := by
  interval_cases n <;> decide

lemma toDigitsCore_no_slash (fuel : Nat) :
    ∀ n ds, '/' ∉ ds → '/' ∉ Nat.toDigitsCore 10 fuel n ds := by
  induction fuel with
  | zero => intro n ds h; exact h
  | succ fuel ih =>
    intro n ds h
    have hd : Nat.digitChar (n % 10) ≠ '/' :=
      digitChar_ne_slash _ (Nat.mod_lt _ (by omega))
    show '/' ∉ (if n / 10 = 0 then Nat.digitChar (n % 10) :: ds
      else Nat.toDigitsCore 10 fuel (n / 10) (Nat.digitChar (n % 10) :: ds))
    split
    · intro hmem
      simp only [List.mem_cons] at hmem
      rcases hmem with hmem | hmem
      · exact hd hmem.symm
      · exact h hmem
    · apply ih
      intro hmem
      simp only [List.mem_cons] at hmem
      rcases hmem with hmem | hmem
      · exact hd hmem.symm
      · exact h hmem

lemma repr_no_slash (n : Nat) : '/' ∉ (Nat.repr n).data := by
  show '/' ∉ (Nat.toDigits 10 n).asString.data
  have hdata : (Nat.toDigits 10 n).asString.data = Nat.toDigits 10 n := rfl
  rw [hdata]
  exact toDigitsCore_no_slash (n + 1) n [] (by simp)

lemma trimPrefixStr_subset (d pre : String) :
    ∀ c ∈ (directory.trimPrefixStr d pre).data, c ∈ d.data := by
  intro c hc
  unfold directory.trimPrefixStr at hc
  split at hc
  · exact List.drop_subset _ _ hc
  · exact hc

/-! ## Claims about the fallback loop -/

/-- Claim C1: in the endpoint fallback loop of `getData`, every iteration
reached with `confirmedV2` already true and a V1 endpoint skips that endpoint
(no fetcher construction, no fetch attempt), and once the flag is true at
some iteration it stays true for every later iteration, so no lower-version
endpoint is ever attempted for the rest of the loop. -/
theorem claim_C1_v1_skip_once_confirmed (eps : List Endpoint)
    (out : RunOutcome) (tr : List TraceEntry)
    (h : getDataRun eps initLoopState = (out, tr)) :
    (∀ d ∈ tr, d.pre.confirmedV2 = true → d.ep.version = .v1 →
        d.act = .skippedV1) ∧
      (∀ l₁ c l₂, tr = l₁ ++ c :: l₂ → c.pre.confirmedV2 = true →
        ∀ d ∈ l₂, d.pre.confirmedV2 = true ∧
          (d.ep.version = .v1 → d.act = .skippedV1)) := by
  constructor
  · intro d hd h1 h2
    have hd' : d ∈ (getDataRun eps initLoopState).2 := by rw [h]; exact hd
    exact (getDataRun_mem_facts eps initLoopState d hd').2.1 h1 h2
  · intro l₁ c l₂ htr hc d hd
    rw [htr] at h
    rcases getDataRun_entry_step eps initLoopState out l₁ c l₂ h with
      ⟨st', hstep, eps', hrun⟩ | ⟨_, hnil⟩
    · have hpost : st' = postState c :=
        stepEndpoint_next_post c.ep c.pre c.act st' hstep
      have hconf : st'.confirmedV2 = true := by
        rw [hpost]
        exact postState_confirmedV2_mono c hc
      have hd' : d ∈ (getDataRun eps' st').2 := by rw [hrun]; exact hd
      refine ⟨getDataRun_conf_mono eps' st' hconf d hd', fun hv => ?_⟩
      exact (getDataRun_mem_facts eps' st' d hd').2.1
        (getDataRun_conf_mono eps' st' hconf d hd') hv
    · subst hnil
      simp at hd

/-- Witness for C1 on a concrete run: a confirmed-V2 failure followed by a
V1 endpoint; the second iteration starts with the flag set and is skipped. -/
theorem claim_C1_v1_skip_once_confirmed_witness :
    getDataRun [⟨.v2, .error (.fallbackError true (.generic 1)), false⟩,
                ⟨.v1, .ok 5, false⟩] initLoopState =
      (.exhausted (.generic 1),
        [⟨⟨.v2, .error (.fallbackError true (.generic 1)), false⟩,
            initLoopState, .recordedConcrete true (.generic 1)⟩,
          ⟨⟨.v1, .ok 5, false⟩, ⟨some (.generic 1), true, true⟩, .skippedV1⟩]) ∧
      (⟨⟨.v1, .ok 5, false⟩, ⟨some (.generic 1), true, true⟩,
          .skippedV1⟩ : TraceEntry).act = .skippedV1 := by
  refine ⟨rfl, ?_⟩
  exact (claim_C1_v1_skip_once_confirmed
      [⟨.v2, .error (.fallbackError true (.generic 1)), false⟩,
        ⟨.v1, .ok 5, false⟩] _ _ rfl).1
    ⟨⟨.v1, .ok 5, false⟩, ⟨some (.generic 1), true, true⟩, .skippedV1⟩
    (by decide) rfl rfl

/-- Claim C2 as stated is false on the code: after the concrete (generic)
fallback failure of the first endpoint is recorded, a later V1 endpoint's
fetcher-construction failure overwrites `lastErr`, so the exhausted loop
returns the construction error, not the recorded concrete fetch error. -/
theorem claim_C2_counterexample :
    getDataRun [⟨.v2, .error (.fallbackError false (.generic 7)), false⟩,
                ⟨.v1, .ok 0, false⟩] initLoopState =
      (.exhausted (.unknownVersion .v1),
        [⟨⟨.v2, .error (.fallbackError false (.generic 7)), false⟩,
            initLoopState, .recordedConcrete false (.generic 7)⟩,
          ⟨⟨.v1, .ok 0, false⟩, ⟨some (.generic 7), true, false⟩,
            .constructFailed (.unknownVersion .v1)⟩]) ∧
      getData [⟨.v2, .error (.fallbackError false (.generic 7)), false⟩,
               ⟨.v1, .ok 0, false⟩] = .error (.unknownVersion .v1) ∧
      GoErr.unknownVersion .v1 ≠ .generic 7 := by
  exact ⟨rfl, rfl, by decide⟩

/-- Claim C2 (amended): once a fallback-eligible failure with a
non-`ErrNoSupport` unwrapped error is recorded, the discard flag is set for
every later iteration and no later iteration records an `ErrNoSupport` error
(so such failures leave `lastErr` unchanged); when the endpoint list is then
exhausted, the returned error is never an `ErrNoSupport` error: it is that
concrete error or an error recorded later (a later concrete fallback failure
or a fetcher-construction failure). -/
theorem claim_C2_discard_after_concrete (eps : List Endpoint)
    (out : RunOutcome) (tr : List TraceEntry)
    (h : getDataRun eps initLoopState = (out, tr)) :
    ∀ l₁ c l₂ cv2 e₀, tr = l₁ ++ c :: l₂ →
      c.act = .recordedConcrete cv2 e₀ →
      (∀ d ∈ l₂, d.pre.discard = true ∧
          ∀ cv2' e', d.act ≠ .recordedNoSupport cv2' e') ∧
        (∀ err, out = .exhausted err → err.isNoSupport = false ∧
          (err = e₀ ∨ ∃ d ∈ l₂,
            (∃ cv2'', d.act = .recordedConcrete cv2'' err) ∨
              d.act = .constructFailed err)) := by
  intro l₁ c l₂ cv2 e₀ htr hact
  rw [htr] at h
  rcases getDataRun_entry_step eps initLoopState out l₁ c l₂ h with
    ⟨st', hstep, eps', hrun⟩ | ⟨hhalt, hnil⟩
  · have hpost : st' = postState c :=
      stepEndpoint_next_post c.ep c.pre c.act st' hstep
    have hd : st'.discard = true := by rw [hpost]; simp [postState, hact]
    have hl : st'.lastErr = some e₀ := by rw [hpost]; simp [postState, hact]
    have hns : e₀.isNoSupport = false := by
      rw [hact] at hstep
      exact (stepEndpoint_recordedConcrete c.ep c.pre cv2 e₀ st' hstep).1
    have inv := getDataRun_discard_inv eps' st' e₀ hd hl hns
    constructor
    · intro d hdm
      have hdm' : d ∈ (getDataRun eps' st').2 := by rw [hrun]; exact hdm
      exact inv.1 d hdm'
    · intro err herr
      have hout : (getDataRun eps' st').1 = .exhausted err := by
        rw [hrun]; exact herr
      obtain ⟨h1, h2⟩ := inv.2 err hout
      refine ⟨h1, ?_⟩
      rcases h2 with h2 | ⟨d, hdm, h2⟩
      · exact Or.inl h2
      · refine Or.inr ⟨d, ?_, h2⟩
        rw [hrun] at hdm
        exact hdm
  · exfalso
    have hcont := stepEndpoint_halt_not_continue c.ep c.pre out c.act hhalt
    rw [hact] at hcont
    simp [LoopAction.isContinue] at hcont

/-- Witness for the amended C2 on a concrete run: a concrete fallback failure
followed by an `ErrNoSupport` fallback failure; the second is ignored and the
exhausted loop returns the concrete error. -/
theorem claim_C2_discard_after_concrete_witness :
    getDataRun [⟨.v2, .error (.fallbackError false (.generic 7)), false⟩,
                ⟨.v2, .error (.fallbackError false (.errNoSupport 3)), false⟩]
        initLoopState =
      (.exhausted (.generic 7),
        [⟨⟨.v2, .error (.fallbackError false (.generic 7)), false⟩,
            initLoopState, .recordedConcrete false (.generic 7)⟩,
          ⟨⟨.v2, .error (.fallbackError false (.errNoSupport 3)), false⟩,
            ⟨some (.generic 7), true, false⟩,
            .ignoredNoSupport false (.errNoSupport 3)⟩]) ∧
      ((∀ d ∈ [(⟨⟨.v2, .error (.fallbackError false (.errNoSupport 3)), false⟩,
            ⟨some (.generic 7), true, false⟩,
            .ignoredNoSupport false (.errNoSupport 3)⟩ : TraceEntry)],
          d.pre.discard = true ∧
            ∀ cv2' e', d.act ≠ .recordedNoSupport cv2' e') ∧
        (∀ err, RunOutcome.exhausted (.generic 7) = .exhausted err →
          err.isNoSupport = false ∧
            (err = .generic 7 ∨
              ∃ d ∈ [(⟨⟨.v2, .error (.fallbackError false (.errNoSupport 3)),
                    false⟩, ⟨some (.generic 7), true, false⟩,
                  .ignoredNoSupport false (.errNoSupport 3)⟩ : TraceEntry)],
                (∃ cv2'', d.act = .recordedConcrete cv2'' err) ∨
                  d.act = .constructFailed err))) := by
  refine ⟨rfl, ?_⟩
  exact claim_C2_discard_after_concrete
    [⟨.v2, .error (.fallbackError false (.generic 7)), false⟩,
      ⟨.v2, .error (.fallbackError false (.errNoSupport 3)), false⟩] _ _ rfl
    [] _ _ false (.generic 7) rfl rfl

/-- Claim C4: if a fetch attempt fails and the cancellation signal has
already fired at that iteration's failure check, the loop stops (no further
endpoints appear in the trace) and the surfaced error is that fetch failure
itself, bypassing all fallback classification. -/
theorem claim_C4_cancellation_stops_fallback (eps : List Endpoint)
    (out : RunOutcome) (tr : List TraceEntry) (l₁ : List TraceEntry)
    (c : TraceEntry) (l₂ : List TraceEntry) (e : GoErr)
    (h : getDataRun eps initLoopState = (out, tr)) (htr : tr = l₁ ++ c :: l₂)
    (hv : c.ep.version = .v2) (hf : c.ep.fetchResult = .error e)
    (hd : c.ep.ctxDone = true) :
    c.act = .abortedCtxDone e ∧ l₂ = [] ∧ out = .earlyErr e ∧
      getData eps = .error e := by
  rw [htr] at h
  have hstep := (stepEndpoint_v2_err c.ep c.pre e hv hf).1 hd
  rcases getDataRun_entry_step eps initLoopState out l₁ c l₂ h with
    ⟨st', hnext, _⟩ | ⟨hhalt, hnil⟩
  · rw [hstep] at hnext
    cases hnext
  · rw [hstep] at hhalt
    injection hhalt with h1 h2
    refine ⟨h2.symm, hnil, h1.symm, ?_⟩
    unfold getData
    rw [h, ← h1]
    rfl

/-- Witness for C4: a canceled failing fetch on the first endpoint; the
second endpoint is never reached. -/
theorem claim_C4_cancellation_stops_fallback_witness :
    getDataRun [⟨.v2, .error (.generic 9), true⟩, ⟨.v2, .ok 1, false⟩]
        initLoopState =
      (.earlyErr (.generic 9),
        [⟨⟨.v2, .error (.generic 9), true⟩, initLoopState,
            .abortedCtxDone (.generic 9)⟩]) ∧
      ((⟨⟨.v2, .error (.generic 9), true⟩, initLoopState,
          .abortedCtxDone (.generic 9)⟩ : TraceEntry).act =
            .abortedCtxDone (.generic 9) ∧
        ([] : List TraceEntry) = [] ∧
        RunOutcome.earlyErr (.generic 9) = .earlyErr (.generic 9) ∧
        getData [⟨.v2, .error (.generic 9), true⟩, ⟨.v2, .ok 1, false⟩] =
          .error (.generic 9)) := by
  refine ⟨rfl, ?_⟩
  exact claim_C4_cancellation_stops_fallback
    [⟨.v2, .error (.generic 9), true⟩, ⟨.v2, .ok 1, false⟩] _ _
    [] _ [] (.generic 9) rfl rfl rfl rfl rfl

/-- Claim C10: a fetch failure that is not a `fallbackError` (with no
cancellation observed) makes `getData` return that error immediately; no
further endpoints are attempted. -/
theorem claim_C10_non_fallback_returns (eps : List Endpoint)
    (out : RunOutcome) (tr : List TraceEntry) (l₁ : List TraceEntry)
    (c : TraceEntry) (l₂ : List TraceEntry) (e : GoErr)
    (h : getDataRun eps initLoopState = (out, tr)) (htr : tr = l₁ ++ c :: l₂)
    (hv : c.ep.version = .v2) (hf : c.ep.fetchResult = .error e)
    (hd : c.ep.ctxDone = false) (hfb : e.isFallback = false) :
    c.act = .abortedNoFallback e ∧ l₂ = [] ∧ out = .earlyErr e ∧
      getData eps = .error e := by
  rw [htr] at h
  have hstep := (stepEndpoint_v2_err c.ep c.pre e hv hf).2 hd hfb
  rcases getDataRun_entry_step eps initLoopState out l₁ c l₂ h with
    ⟨st', hnext, _⟩ | ⟨hhalt, hnil⟩
  · rw [hstep] at hnext
    cases hnext
  · rw [hstep] at hhalt
    injection hhalt with h1 h2
    refine ⟨h2.symm, hnil, h1.symm, ?_⟩
    unfold getData
    rw [h, ← h1]
    rfl

/-- Witness for C10: a plain (non-`fallbackError`) failure on the first
endpoint ends the loop at once. -/
theorem claim_C10_non_fallback_returns_witness :
    getDataRun [⟨.v2, .error (.generic 4), false⟩, ⟨.v2, .ok 1, false⟩]
        initLoopState =
      (.earlyErr (.generic 4),
        [⟨⟨.v2, .error (.generic 4), false⟩, initLoopState,
            .abortedNoFallback (.generic 4)⟩]) ∧
      ((⟨⟨.v2, .error (.generic 4), false⟩, initLoopState,
          .abortedNoFallback (.generic 4)⟩ : TraceEntry).act =
            .abortedNoFallback (.generic 4) ∧
        ([] : List TraceEntry) = [] ∧
        RunOutcome.earlyErr (.generic 4) = .earlyErr (.generic 4) ∧
        getData [⟨.v2, .error (.generic 4), false⟩, ⟨.v2, .ok 1, false⟩] =
          .error (.generic 4)) := by
  refine ⟨rfl, ?_⟩
  exact claim_C10_non_fallback_returns
    [⟨.v2, .error (.generic 4), false⟩, ⟨.v2, .ok 1, false⟩] _ _
    [] _ [] (.generic 4) rfl rfl rfl rfl rfl (by decide)

/-- Claim C9: `newManifestFetcher` succeeds exactly for protocol version V2
and returns the `unknown version` error for every other version (V1);
consequently a V1 endpoint in the loop never reaches an actual fetch: it is
either skipped outright or its construction error becomes the remembered
last error and the loop moves on to the next endpoint (returning that error
if the list ends there). -/
theorem claim_C9_v1_construction_fails :
    (∀ v, newManifestFetcher v = .ok () ↔ v = .v2) ∧
      (∀ v, v ≠ .v2 → newManifestFetcher v = .error (.unknownVersion v)) ∧
      (∀ eps out tr l₁ c l₂, getDataRun eps initLoopState = (out, tr) →
        tr = l₁ ++ c :: l₂ → c.ep.version = .v1 →
        c.act = .skippedV1 ∨
          (c.act = .constructFailed (.unknownVersion .v1) ∧
            (l₂ = [] → out = .exhausted (.unknownVersion .v1)) ∧
            (∀ d l₂', l₂ = d :: l₂' →
              d.pre.lastErr = some (.unknownVersion .v1)))) := by
  refine ⟨?_, ?_, ?_⟩
  · intro v
    cases v <;> simp [newManifestFetcher]
  · intro v hv
    cases v <;> simp_all [newManifestFetcher]
  · intro eps out tr l₁ c l₂ h htr hv
    rw [htr] at h
    have hcm : c ∈ l₁ ++ c :: l₂ :=
      List.mem_append.mpr (Or.inr (List.mem_cons_self _ _))
    have hf := getDataRun_mem_facts eps initLoopState c (by rw [h]; exact hcm)
    rcases hf.2.2.1 hv with ha | ha
    · exact Or.inl ha
    · rcases getDataRun_entry_step eps initLoopState out l₁ c l₂ h with
        ⟨st', hstep, eps', hrun⟩ | ⟨hhalt, hnil⟩
      · have hpost : st' = postState c :=
          stepEndpoint_next_post c.ep c.pre c.act st' hstep
        have hl : st'.lastErr = some (.unknownVersion .v1) := by
          rw [hpost]
          simp [postState, ha]
        refine Or.inr ⟨ha, ?_, ?_⟩
        · intro hl2
          rw [hl2] at hrun
          have hout := (getDataRun_trace_nil eps' st' out hrun).2
          rw [hout, hl]
          rfl
        · intro d l₂' hl2
          rw [hl2] at hrun
          have := getDataRun_head_pre eps' st' out d l₂' hrun
          rw [this, hl]
      · exfalso
        have hcont := stepEndpoint_halt_not_continue c.ep c.pre out c.act hhalt
        rw [ha] at hcont
        simp [LoopAction.isContinue] at hcont

/-- Witness for C9: a V1 endpoint (flag not yet confirmed) whose fetcher
construction fails, followed by a V2 endpoint; the construction error is the
remembered state of the next iteration. -/
theorem claim_C9_v1_construction_fails_witness :
    getDataRun [⟨.v1, .ok 0, false⟩, ⟨.v2, .ok 1, false⟩] initLoopState =
      (.success 1,
        [⟨⟨.v1, .ok 0, false⟩, initLoopState,
            .constructFailed (.unknownVersion .v1)⟩,
          ⟨⟨.v2, .ok 1, false⟩, ⟨some (.unknownVersion .v1), false, false⟩,
            .fetchSucceeded 1⟩]) ∧
      ((⟨⟨.v1, .ok 0, false⟩, initLoopState,
          .constructFailed (.unknownVersion .v1)⟩ : TraceEntry).act =
            .skippedV1 ∨
        ((⟨⟨.v1, .ok 0, false⟩, initLoopState,
            .constructFailed (.unknownVersion .v1)⟩ : TraceEntry).act =
              .constructFailed (.unknownVersion .v1) ∧
          ([(⟨⟨.v2, .ok 1, false⟩, ⟨some (.unknownVersion .v1), false, false⟩,
              .fetchSucceeded 1⟩ : TraceEntry)] = [] →
            RunOutcome.success 1 = .exhausted (.unknownVersion .v1)) ∧
          (∀ d l₂',
            [(⟨⟨.v2, .ok 1, false⟩, ⟨some (.unknownVersion .v1), false,
                false⟩, .fetchSucceeded 1⟩ : TraceEntry)] = d :: l₂' →
            d.pre.lastErr = some (.unknownVersion .v1)))) := by
  refine ⟨rfl, ?_⟩
  exact claim_C9_v1_construction_fails.2.2
    [⟨.v1, .ok 0, false⟩, ⟨.v2, .ok 1, false⟩] _ _ [] _ _ rfl rfl rfl

/-- Claim C5: when `getData` exhausts its endpoint list without a successful
fetch, it fails with the `no endpoints found` error exactly when no iteration
recorded an error into `lastErr`, and otherwise fails with the last
remembered error.  The `wfEndpoints` side condition records that in Go the
`no endpoints found` error value is freshly allocated after the loop, so no
endpoint's own failure can be that value. -/
theorem claim_C5_exhaustion_error (eps : List Endpoint) (err : GoErr)
    (tr : List TraceEntry) (hwf : wfEndpoints eps)
    (h : getDataRun eps initLoopState = (.exhausted err, tr)) :
    (err = .noEndpointsFound ↔ recordedErrs tr = []) ∧
      (∀ r, (recordedErrs tr).getLast? = some r → err = r) := by
  have herr := getDataRun_exhausted_lastErr eps initLoopState err tr h
  rw [lastErrAfter_eq_getLast] at herr
  have hrec : ∀ e ∈ recordedErrs tr, e ≠ .noEndpointsFound := by
    intro e he
    have he' : e ∈ recordedErrs (getDataRun eps initLoopState).2 := by
      rw [h]; exact he
    exact recordedErrs_ne_noEndpoints eps initLoopState hwf e he'
  constructor
  · constructor
    · intro hne
      cases hlast : (recordedErrs tr).getLast? with
      | none =>
        cases hl : recordedErrs tr with
        | nil => rfl
        | cons a l =>
          exfalso
          rw [hl, List.getLast?_eq_getLast_of_ne_nil (List.cons_ne_nil a l)]
            at hlast
          cases hlast
      | some r =>
        exfalso
        rw [hlast] at herr
        have herr' : err = r := herr
        have hmem : r ∈ recordedErrs tr := by
          obtain ⟨hne', hgl⟩ := List.mem_getLast?_eq_getLast hlast
          rw [hgl]
          exact List.getLast_mem hne'
        exact hrec r hmem (by rw [← herr', hne])
    · intro hnil
      rw [hnil] at herr
      exact herr
  · intro r hr
    rw [hr] at herr
    exact herr

/-- Witness for C5: a single V1 endpoint records its construction error and
the exhausted loop returns it, not the `no endpoints found` default. -/
theorem claim_C5_exhaustion_error_witness :
    wfEndpoints [⟨.v1, .ok 0, false⟩] ∧
      ((GoErr.unknownVersion .v1 = .noEndpointsFound ↔
          recordedErrs [⟨⟨.v1, .ok 0, false⟩, initLoopState,
            .constructFailed (.unknownVersion .v1)⟩] = []) ∧
        (∀ r, (recordedErrs [⟨⟨.v1, .ok 0, false⟩, initLoopState,
              .constructFailed (.unknownVersion .v1)⟩]).getLast? = some r →
          GoErr.unknownVersion .v1 = r)) := by
  have hwf : wfEndpoints [⟨.v1, .ok 0, false⟩] := by
    intro ep hep cv2 inner hres
    simp only [List.mem_singleton] at hep
    subst hep
    simp at hres
  exact ⟨hwf, claim_C5_exhaustion_error [⟨.v1, .ok 0, false⟩] _ _ hwf rfl⟩

/-- Claim C3: parsing a valid input through the directory transport, rendering
with `StringWithinTransport` and re-parsing through the same transport (same
filesystem state) yields a reference whose `StringWithinTransport` is
byte-identical to the first rendering. -/
theorem claim_C3_string_within_transport_round_trip (fs : directory.FS)
    (s : String) (ref : directory.dirReference)
    (h : directory.ParseReference fs s = some ref) :
    ∃ ref₂, directory.ParseReference fs (directory.StringWithinTransport ref) =
        some ref₂ ∧
      directory.StringWithinTransport ref₂ = directory.StringWithinTransport ref := by
  have hpath : ref.path = s := by
    unfold directory.ParseReference directory.NewReference at h
    cases hres : fs.resolve s with
    | none => rw [hres] at h; cases h
    | some r =>
      rw [hres] at h
      injection h with h
      rw [← h]
  refine ⟨ref, ?_, rfl⟩
  show directory.ParseReference fs ref.path = some ref
  rw [hpath]
  exact h

/-- Witness for C3 at a concrete filesystem and path. -/
theorem claim_C3_string_within_transport_round_trip_witness :
    directory.ParseReference ⟨fun _ => some "/resolved"⟩ "/d" =
        some ⟨"/d", "/resolved"⟩ ∧
      ∃ ref₂, directory.ParseReference ⟨fun _ => some "/resolved"⟩
          (directory.StringWithinTransport ⟨"/d", "/resolved"⟩) = some ref₂ ∧
        directory.StringWithinTransport ref₂ =
          directory.StringWithinTransport ⟨"/d", "/resolved"⟩ := by
  refine ⟨rfl, ?_⟩
  exact claim_C3_string_within_transport_round_trip ⟨fun _ => some "/resolved"⟩
    "/d" ⟨"/d", "/resolved"⟩ rfl

/-- Claim C7: the directory transport's scope validation accepts a scope
exactly when it starts with `/`, is not exactly `/`, and equals its
`filepath.Clean` normal form; the spec's three rejected examples are checked
concretely. -/
theorem claim_C7_validate_scope :
    (∀ scope, directory.ValidatePolicyConfigurationScope scope = none ↔
        (directory.hasPrefixStr scope "/" = true ∧ scope ≠ "/" ∧
          cleanPath scope = scope)) ∧
      directory.ValidatePolicyConfigurationScope "/" = some .forbiddenRoot ∧
      directory.ValidatePolicyConfigurationScope "/a/b/" =
        some (.nonCanonical "/a/b") ∧
      directory.ValidatePolicyConfigurationScope "relative/path" =
        some .notAbsolute := by
  refine ⟨?_, by decide, by decide, by decide⟩
  intro scope
  unfold directory.ValidatePolicyConfigurationScope
  constructor
  · intro h
    split at h
    · cases h
    · split at h
      · cases h
      · split at h
        · cases h
        · rename_i h1 h2 h3
          simp only [Bool.not_eq_false] at h1
          simp only [ne_eq, not_not] at h3
          exact ⟨h1, h2, h3⟩
  · intro ⟨h1, h2, h3⟩
    rw [if_neg (by simp [h1]), if_neg h2, if_neg (by simp [h3])]

/-- Claim C8 as stated is false on the code: `filepath.Join` cleans its
result, so for a reference whose path is not in canonical form (here a
trailing slash) `manifestPath` is not the plain concatenation
`path + "/manifest.json"`; and `layerPath` strips only the literal `sha256:`
prefix, so a digest with a different algorithm prefix keeps it. -/
theorem claim_C8_counterexample :
    (directory.manifestPath ⟨"foo/", "/foo"⟩ = "foo/manifest.json" ∧
      "foo/manifest.json" ≠ "foo/" ++ "/manifest.json") ∧
      (directory.layerPath ⟨"/x", "/x"⟩ "sha512:ab" = "/x/sha512:ab.tar" ∧
        "/x/sha512:ab.tar" ≠ "/x/" ++ "ab" ++ ".tar") := by
  exact ⟨⟨by decide, by decide⟩, by decide, by decide⟩

/-- Claim C8 (amended): for a directory reference whose path `p` is already
in `filepath.Clean` canonical form and is neither `/` nor `.`:
`manifestPath` returns `p + "/manifest.json"`; for a digest with no path
separator, `layerPath` returns `p + "/" + digest' + ".tar"` where `digest'`
is the digest with a literal leading `sha256:` (only) removed; and
`signaturePath` for 0-based index `i` returns `p + "/signature-" + (i+1)`. -/
theorem claim_C8_on_disk_layout (p rp : String) (hp : cleanPath p = p)
    (hroot : p ≠ "/") (hdot : p ≠ ".") (d : String) (hdig : '/' ∉ d.data)
    (i : Nat) :
    directory.manifestPath ⟨p, rp⟩ = p ++ "/manifest.json" ∧
      directory.layerPath ⟨p, rp⟩ d =
        p ++ "/" ++ directory.trimPrefixStr d "sha256:" ++ ".tar" ∧
      directory.signaturePath ⟨p, rp⟩ i =
        p ++ "/signature-" ++ Nat.repr (i + 1) := by
  refine ⟨?_, ?_, ?_⟩
  · have h1 := joinPath_comp p "manifest.json" hp hroot hdot
      ⟨by decide, by decide, by decide, by decide⟩
    unfold directory.manifestPath
    rw [h1]
    apply String.eq_of_data
    show p.data ++ '/' :: "manifest.json".data = (p ++ "/manifest.json").data
    rw [String.data_append]
  · have hcomp : isComp (directory.trimPrefixStr d "sha256:" ++ ".tar").data := by
      refine ⟨?_, ?_, ?_, ?_⟩
      · rw [String.data_append]
        simp
      · rw [String.data_append]
        intro hmem
        rcases List.mem_append.mp hmem with hmem | hmem
        · exact hdig (trimPrefixStr_subset d "sha256:" '/' hmem)
        · exact absurd hmem (by decide)
      · intro h
        have hlen := congrArg List.length h
        rw [String.data_append] at hlen
        simp at hlen
      · intro h
        have hlen := congrArg List.length h
        rw [String.data_append] at hlen
        simp at hlen
    have h1 := joinPath_comp p (directory.trimPrefixStr d "sha256:" ++ ".tar")
      hp hroot hdot hcomp
    unfold directory.layerPath
    rw [h1]
    apply String.eq_of_data
    show p.data ++ '/' :: (directory.trimPrefixStr d "sha256:" ++ ".tar").data =
      (p ++ "/" ++ directory.trimPrefixStr d "sha256:" ++ ".tar").data
    simp [String.data_append]
  · have hcomp : isComp ("signature-" ++ Nat.repr (i + 1)).data := by
      refine ⟨?_, ?_, ?_, ?_⟩
      · rw [String.data_append]
        simp
      · rw [String.data_append]
        intro hmem
        rcases List.mem_append.mp hmem with hmem | hmem
        · exact absurd hmem (by decide)
        · exact repr_no_slash (i + 1) hmem
      · intro h
        have hlen := congrArg List.length h
        rw [String.data_append] at hlen
        simp at hlen
      · intro h
        have hlen := congrArg List.length h
        rw [String.data_append] at hlen
        simp at hlen
    have h1 := joinPath_comp p ("signature-" ++ Nat.repr (i + 1))
      hp hroot hdot hcomp
    unfold directory.signaturePath
    rw [h1]
    apply String.eq_of_data
    show p.data ++ '/' :: ("signature-" ++ Nat.repr (i + 1)).data =
      (p ++ "/signature-" ++ Nat.repr (i + 1)).data
    simp [String.data_append]

/-- Witness for the amended C8 at a concrete canonical path, digest and
index. -/
theorem claim_C8_on_disk_layout_witness :
    cleanPath "/x" = "/x" ∧
      (directory.manifestPath ⟨"/x", "/x"⟩ = "/x" ++ "/manifest.json" ∧
        directory.layerPath ⟨"/x", "/x"⟩ "sha256:ab" =
          "/x" ++ "/" ++ directory.trimPrefixStr "sha256:ab" "sha256:" ++ ".tar" ∧
        directory.signaturePath ⟨"/x", "/x"⟩ 0 =
          "/x" ++ "/signature-" ++ Nat.repr 1) := by
  refine ⟨by decide, ?_⟩
  exact claim_C8_on_disk_layout "/x" "/x" (by decide) (by decide) (by decide)
    "sha256:ab" (by decide) 0

/-- Claim C6 as stated is false for the backend-specific constructor: per
`TestNewReference` (src/unnamed/part_000 lines 89-96), `NewReference`
rejects an already-structured name carrying both a tag and a digest instead
of dropping the tag; no reference is produced at all. -/
theorem claim_C6_counterexample :
    docker.NewReference ⟨"busybox", some "latest",
        some ("sha256:" ++ String.mk (List.replicate 4 'a'))⟩ = none ∧
      ¬ ∃ ref, docker.NewReference ⟨"busybox", some "latest",
          some ("sha256:" ++ String.mk (List.replicate 4 'a'))⟩ = some ref := by
  constructor
  · rfl
  · rintro ⟨ref, href⟩
    cases href

/-- Claim C6 (amended): for an input carrying both an explicit tag and an
explicit digest, the transport parse entry point keeps the digest and drops
the tag (the resulting reference's only pin is the digest), while the
backend-specific constructor taking an already-structured name rejects such
a name outright. -/
theorem claim_C6_tag_digest_conflict (repo t d : String) :
    docker.ParseReference ⟨repo, some t, some d⟩ =
        some ⟨repo, none, some d⟩ ∧
      docker.NewReference ⟨repo, some t, some d⟩ = none := by
  exact ⟨rfl, rfl⟩
